import Mathlib

/-!
Verification of the seekarr search orchestrator against its specification.

The definitions below are a shallow embedding of the Python sources in
`src/seekarr/`.  Timestamps are modelled as integers counting seconds since an
arbitrary epoch; every time quantity the embedded code manipulates (timedeltas
of 30 seconds, whole minutes and whole hours, day boundaries) is a whole
number of seconds, so this granularity is faithful for the claims below.
External collaborators (the Fernet cipher, `hashlib`, `base64`, ISO timestamp
parsing where it is incidental to a claim) are taken as parameters of the
functions that call them, so the theorems quantify over their behaviour.

String handling is embedded over `List Char` with structural recursion
(`String.trim`/`String.splitOn` are defined by well-founded recursion and do
not reduce inside the kernel); `stringChars` converts a literal to its
character list.
-/

namespace Seekarr

/-- Characters treated as whitespace by `str.strip()` for the ASCII strings
that reach the parsers here. -/
def isSpaceChar (c : Char) : Bool := c = ' ' ∨ c = '\t' ∨ c = '\n' ∨ c = '\r'

/-- `str.strip()` on a character list. -/
def trimChars (cs : List Char) : List Char :=
  ((cs.dropWhile isSpaceChar).reverse.dropWhile isSpaceChar).reverse

/-- `str.split(sep)` on a character list (single-character separator,
no maxsplit): always returns at least one field. -/
def splitCh (sep : Char) : List Char → List (List Char)
  | [] => [[]]
  | c :: rest =>
    let r := splitCh sep rest
    if c = sep then [] :: r
    else
      match r with
      | [] => [[c]]
      | h :: t => (c :: h) :: t

def stringChars (s : String) : List Char := s.data

/-! ## Python integer parsing

Models CPython `int(s)` on the ASCII decimal strings that reach it in
`engine._parse_hhmm` and `webui._verify_password`: optional surrounding
whitespace, an optional sign, then one or more decimal digits. -/

def pyDigits? (cs : List Char) : Option Nat :=
  if cs.isEmpty then none
  else
    cs.foldl
      (fun acc c =>
        match acc with
        | none => none
        | some n => if c.isDigit then some (n * 10 + (c.toNat - 48)) else none)
      (some 0)

def pyInt? (cs : List Char) : Option Int :=
  match trimChars cs with
  | '-' :: rest => (pyDigits? rest).map (fun n => -(n : Int))
  | '+' :: rest => (pyDigits? rest).map (fun n => (n : Int))
  | l => (pyDigits? l).map (fun n => (n : Int))

/-! ## `engine._parse_hhmm` -/

/-- Embedding of `engine._parse_hhmm`: strip, split on a colon into exactly
two parts, parse both as Python ints, and range-check hours and minutes. -/
def parse_hhmm (value : List Char) : Option (Int × Int) :=
  let s := trimChars value
  if s.isEmpty then none
  else
    match splitCh ':' s with
    | [p0, p1] =>
      match pyInt? p0, pyInt? p1 with
      | some hh, some mm =>
        if 0 ≤ hh ∧ hh ≤ 23 ∧ 0 ≤ mm ∧ mm ≤ 59 then some (hh, mm) else none
      | _, _ => none
    | _ => none

/-! ## `engine._quiet_hours_end_utc` (the version shipped in `src/seekarr/engine.py`)

The shipped function takes only `(now_utc, start_hhmm, end_hhmm)` and converts
`now_utc` with `datetime.astimezone()` — the HOST's local timezone — before
comparing against the configured window; no configured quiet timezone is ever
consulted.  We model the host timezone as an explicit fixed offset in minutes
(`hostOffsetMin`), which is what `astimezone()` applies to the instant.
`local_now.replace(hour=…, minute=…, second=0, microsecond=0)` is modelled by
flooring the local time to its civil day (Python floor division, `Int.fdiv`)
and adding the configured wall-clock offset.  The result is mapped back to
UTC. -/
def quiet_hours_end_utc (hostOffsetMin : Int) (nowUtc : Int)
    (startHHMM endHHMM : List Char) : Option Int :=
  match parse_hhmm startHHMM, parse_hhmm endHHMM with
  | some st, some et =>
    let localNow : Int := nowUtc + hostOffsetMin * 60
    let dayStart : Int := 86400 * (Int.fdiv localNow 86400)
    let startLocalToday : Int := dayStart + st.1 * 3600 + st.2 * 60
    let endLocalToday : Int := dayStart + et.1 * 3600 + et.2 * 60
    let result : Option Int :=
      if startLocalToday < endLocalToday then
        if startLocalToday ≤ localNow ∧ localNow < endLocalToday then
          some endLocalToday
        else none
      else
        if localNow ≥ startLocalToday then some (endLocalToday + 86400)
        else if localNow < endLocalToday then some endLocalToday
        else none
    result.map (fun endLocal => endLocal - hostOffsetMin * 60)
  | _, _ => none

/-! ## Per-cycle cap enforcement (`engine._run_instance_sync`)

The success or failure of an individual trigger is decided inside
`_handle_wanted_item` / `_handle_sonarr_season_search` /
`_handle_sonarr_show_search` (release gate, rate cap, cooldown, the HTTP
command itself); for cap obedience only the resulting boolean matters, so the
processors below take it as an oracle.  `process` embeds the local function
`_process` (used for Radarr missing, Sonarr `episodes` mode, and the cutoff
bucket, as well as the structurally identical `shows`-mode group loop at
engine.py:881); it returns the final triggered count together with the
unprocessed suffix of the bucket.  `process_season_groups` embeds the
`season_packs`/`smart` group loop at engine.py:754 with its nested
per-episode loop; the chosen action per group (`_smart_mode_action`) is an
oracle as well. -/

inductive SmartActionKind where
  | skip
  | season_pack
  | episodes
deriving DecidableEq, Repr

/-- Embedding of `engine._run_instance_sync._process` (engine.py:582).  The
count starts at the current bucket counter; the loop stops (returning the
untouched suffix) as soon as the counter has reached the cap.  The initial
`if cap <= 0: return` of the source coincides with the loop-top check at
count 0. -/
def process (cap : Int) (succ : α → Bool) : List α → Nat → Nat × List α
  | [], n => (n, [])
  | it :: rest, n =>
    if cap ≤ (n : Int) then (n, it :: rest)
    else process cap succ rest (if succ it then n + 1 else n)

/-- The nested per-episode loop of the `smart` season path
(engine.py:783-804): breaks as soon as the missing counter reaches the cap. -/
def process_episodes_inner (cap : Int) (succ : α → Bool) : List α → Nat → Nat
  | [], n => n
  | e :: rest, n =>
    if cap ≤ (n : Int) then n
    else process_episodes_inner cap succ rest (if succ e then n + 1 else n)

/-- The `season_packs`/`smart` group loop of `engine._run_instance_sync`
(engine.py:754-804).  `act` is the `_smart_mode_action` outcome for a group,
`packSucc` whether `_handle_sonarr_season_search` triggered, `epSucc`
whether `_handle_wanted_item` triggered for an episode. -/
def process_season_groups (cap : Int) (act : σ × List α → SmartActionKind)
    (packSucc : σ → Bool) (epSucc : α → Bool) :
    List (σ × List α) → Nat → Nat × List (σ × List α)
  | [], n => (n, [])
  | g :: rest, n =>
    if cap ≤ (n : Int) then (n, g :: rest)
    else
      match act g with
      | .skip => process_season_groups cap act packSucc epSucc rest n
      | .season_pack =>
        process_season_groups cap act packSucc epSucc rest
          (if packSucc g.1 then n + 1 else n)
      | .episodes =>
        process_season_groups cap act packSucc epSucc rest
          (process_episodes_inner cap epSucc g.2 n)

/-! ## Release-gate wake-up and next-sync computation
(`engine._run_instance_sync`, engine.py:567-580 and 912-920) -/

/-- `interval = max(15, min(60, int(instance.interval_minutes)))`
(engine.py:301). -/
def clampInterval (x : Int) : Int := max 15 (min 60 x)

/-- Embedding of the Radarr wake-up collection loop (engine.py:567-580): for
each missing item with a known release timestamp inside the recent window
`[now − 2d, now]` whose eligibility instant `release + min_hours` is still in
the future, remember the earliest such instant.  (The Sonarr loop at
engine.py:553-566 is identical with air dates.) -/
def collect_wakeup (now : Int) (minHoursAfterRelease : Int)
    (releases : List (Option Int)) : Option Int :=
  if minHoursAfterRelease ≤ 0 then none
  else
    releases.foldl
      (fun acc r =>
        match r with
        | none => acc
        | some rel =>
          if rel < now - 2 * 86400 ∨ now < rel then acc
          else
            let eligible := rel + minHoursAfterRelease * 3600
            if eligible ≤ now then acc
            else
              match acc with
              | none => some eligible
              | some w => if eligible < w then some eligible else some w)
      none

/-- The release gate of `engine._handle_wanted_item` (engine.py:983-1007):
the item is skipped (counted in `actions_skipped_not_released`) exactly when
the gate is active, the release timestamp is known, and `now` is before
`release + min_hours`. -/
def release_gate_skips (now minHoursAfterRelease : Int)
    (release : Option Int) : Bool :=
  if 0 < minHoursAfterRelease then
    match release with
    | some rel => decide (now < rel + minHoursAfterRelease * 3600)
    | none => false
  else false

/-- Embedding of engine.py:912-920 composed with `_update_sync_status`: the
next sync time defaults to `now + interval` minutes; a collected wake-up `w`
replaces it by `max(w, now + 30 s)` only when that instant is strictly
earlier than the default. -/
def compute_next_sync (now : Int) (intervalMin : Int) (wake : Option Int) : Int :=
  match wake with
  | none => now + intervalMin * 60
  | some w =>
    if now < w then
      let wdt := max w (now + 30)
      if wdt < now + intervalMin * 60 then wdt else now + intervalMin * 60
    else now + intervalMin * 60

/-! ## Cold-start prioritization (claim C4)

Modelled from the spec: `_prioritize_cold_start_seasons` is imported from
`seekarr.engine` by `src/tests/test_engine_smart_order.py` but is absent from
the shipped `src/seekarr/engine.py`; only its test is available.  Per the
spec (§4.3) and the test's expected output, for every cold-start series the
series' groups are rearranged into ascending season order within the slot
positions that series occupies, while the sequence of series across slots —
and every group of a non-cold series — is left untouched. -/

def seriesOfGroup (g : (Int × Int) × β) : Int := g.1.1

def seasonOfGroup (g : (Int × Int) × β) : Int := g.1.2

/-- Walk the original slot sequence, replacing each slot by the next unused
group from that series' (possibly re-ordered) queue. -/
def popWalk (q : Int → List ((Int × Int) × β)) :
    List ((Int × Int) × β) → List ((Int × Int) × β)
  | [] => []
  | g :: rest =>
    match q (seriesOfGroup g) with
    | [] => g :: popWalk q rest
    | h :: t =>
      h :: popWalk (fun s => if s = seriesOfGroup g then t else q s) rest

def seasonLe (a b : (Int × Int) × β) : Prop := seasonOfGroup a ≤ seasonOfGroup b

instance : DecidableRel (seasonLe (β := β)) := fun _ _ => Int.decLe _ _

instance : IsTotal ((Int × Int) × β) seasonLe := ⟨fun _ _ => Int.le_total _ _⟩

instance : IsTrans ((Int × Int) × β) seasonLe :=
  ⟨fun _ _ _ hab hbc => le_trans hab hbc⟩

/-- Modelled from the spec (see the section header): cold-start series get
their seasons in ascending order, everything else keeps its place. -/
def prioritize_cold_start_seasons (grouped : List ((Int × Int) × β))
    (cold : List Int) : List ((Int × Int) × β) :=
  popWalk
    (fun s =>
      let mine := grouped.filter (fun g => seriesOfGroup g = s)
      if s ∈ cold then mine.insertionSort seasonLe else mine)
    grouped

/-! ## `arr.ArrClient.fetch_series_season_inventory` (arr.py:430-477)

Rows model the `/api/v3/episode` payload entries: `airDate` is `none` when
no `airDateUtc`/`airDate` field is present, `some none` when the field is
present but fails ISO parsing (the source then treats the episode as aired),
and `some (some t)` when it parses to the instant `t`.  Seasons are tallied
in first-appearance order, matching Python dict insertion order; each entry
is `(season, aired_total, aired_downloaded)` — the source tracks no other
counter. -/

structure EpisodeInvRow where
  seasonNumber : Int
  airDate : Option (Option Int)
  hasFile : Bool
deriving DecidableEq, Repr

/-- `out.setdefault(season, …)` followed by the two increments. -/
def invBump : List (Int × Nat × Nat) → Int → Bool → List (Int × Nat × Nat)
  | [], k, hf => [(k, 1, if hf then 1 else 0)]
  | (k', a, d) :: rest, k, hf =>
    if k' = k then (k', a + 1, if hf then d + 1 else d) :: rest
    else (k', a, d) :: invBump rest k hf

def fetch_series_season_inventory (now : Int) (rows : List EpisodeInvRow) :
    List (Int × Nat × Nat) :=
  rows.foldl
    (fun out row =>
      if row.seasonNumber ≤ 0 then out
      else
        let aired : Bool :=
          match row.airDate with
          | none => true
          | some none => true
          | some (some t) => decide (t ≤ now)
        if aired then invBump out row.seasonNumber row.hasFile else out)
    []

/-! ## `arr.ArrClient.fetch_wanted_movies` / `fetch_wanted_episodes`
(arr.py:276-372)

The claims about these functions concern only the key each wanted row is
stored under and its `wanted_kind`; the remaining dataclass fields (title,
year, tmdb/imdb ids, release/air dates) are copied verbatim from the row and
influence neither, so the output dictionary is modelled as an association
list from id to `WantedKind` with Python dict semantics (insertion order,
assignment overwrites in place).  Rows carry the fields the keying and the
monitored filters read; `monitored`-typed fields hold the result of
`arr._as_bool` on the raw value. -/

inductive WantedKind where
  | missing
  | cutoff
deriving DecidableEq, Repr

/-- Python `int(a or b or 0)` on optional ints: `None` and `0` are falsy. -/
def pyOrInt : Option Int → Int → Int
  | none, d => d
  | some v, d => if v = 0 then d else v

/-- Dict lookup. -/
def dlookup (k : Int) : List (Int × WantedKind) → Option WantedKind
  | [] => none
  | (k', v) :: rest => if k' = k then some v else dlookup k rest

/-- `movie_id in out`. -/
def keyMem (k : Int) (st : List (Int × WantedKind)) : Bool :=
  st.any (fun p => p.1 = k)

/-- Dict assignment `out[k] = v`: overwrite in place or append. -/
def dinsert (k : Int) (v : WantedKind) : List (Int × WantedKind) → List (Int × WantedKind)
  | [] => [(k, v)]
  | (k', v') :: rest =>
    if k' = k then (k, v) :: rest else (k', v') :: dinsert k v rest

/-- One iteration of the shared row loop of `fetch_wanted_movies` /
`fetch_wanted_episodes`: extract the id (`0` means unusable → skip), skip a
cutoff row whose id is already present, then apply the monitored filters and
materialize. -/
def wantedStep (idOf : ρ → Int) (keeps : ρ → Bool) (kind : WantedKind)
    (st : List (Int × WantedKind)) (r : ρ) : List (Int × WantedKind) :=
  let k := idOf r
  if k = 0 then st
  else if kind = .cutoff ∧ keyMem k st then st
  else if keeps r then dinsert k kind st
  else st

/-- The two-pass loop `for wanted_kind, rows in (("missing", missing_rows),
("cutoff", cutoff_rows))` over an initially empty dict. -/
def fetch_wanted (idOf : ρ → Int) (keeps : ρ → Bool)
    (missingRows cutoffRows : List ρ) : List (Int × WantedKind) :=
  cutoffRows.foldl (wantedStep idOf keeps .cutoff)
    (missingRows.foldl (wantedStep idOf keeps .missing) [])

/-- A `/api/v3/wanted/...` movie row, restricted to the fields that decide
keying and the monitored filter. -/
structure MovieRow where
  rid : Option Int
  movieId : Option Int
  monitored : Option Bool
  movieMonitored : Option Bool
deriving DecidableEq, Repr

/-- `int(row.get("id") or row.get("movieId") or 0)`. -/
def movieIdOf (r : MovieRow) : Int := pyOrInt r.rid (pyOrInt r.movieId 0)

/-- The monitored resolution of arr.py:292-298: library metadata first
(`meta.get("monitored")`), then the row-level flag, then the nested `movie`
object's flag. -/
def movieMonitoredOf (meta : Int → Option Bool) (r : MovieRow) : Option Bool :=
  match meta (movieIdOf r) with
  | some b => some b
  | none =>
    match r.monitored with
    | some b => some b
    | none => r.movieMonitored

def fetch_wanted_movies (meta : Int → Option Bool)
    (missingRows cutoffRows : List MovieRow) : List (Int × WantedKind) :=
  fetch_wanted movieIdOf
    (fun r => decide (movieMonitoredOf meta r ≠ some false))
    missingRows cutoffRows

/-- A `/api/v3/wanted/...` episode row, restricted to the fields that decide
keying and the monitored filters. -/
structure EpisodeWantedRow where
  rid : Option Int
  episodeId : Option Int
  seriesIdField : Option Int
  seriesNestedId : Option Int
  seriesNestedMonitored : Option Bool
  monitored : Option Bool
deriving DecidableEq, Repr

/-- `int(row.get("id") or row.get("episodeId") or 0)`. -/
def episodeIdOf (r : EpisodeWantedRow) : Int := pyOrInt r.rid (pyOrInt r.episodeId 0)

/-- `int(row.get("seriesId") or series.get("id") or 0)`. -/
def episodeSeriesIdOf (r : EpisodeWantedRow) : Int :=
  pyOrInt r.seriesIdField (pyOrInt r.seriesNestedId 0)

/-- The monitored filters of arr.py:346-356: the series must be monitored
(nested flag, falling back to the `/api/v3/series` lookup, which defaults to
monitored when the series is unknown) and the episode-level flag must not be
`False`. -/
def episodeKeeps (lookupMon : Int → Option Bool) (r : EpisodeWantedRow) : Bool :=
  let fallback := (lookupMon (episodeSeriesIdOf r)).getD true
  let seriesMon :=
    match r.seriesNestedMonitored with
    | some b => b
    | none => fallback
  if seriesMon = false then false
  else if r.monitored = some false then false
  else true

def fetch_wanted_episodes (lookupMon : Int → Option Bool)
    (missingRows cutoffRows : List EpisodeWantedRow) : List (Int × WantedKind) :=
  fetch_wanted episodeIdOf (episodeKeeps lookupMon) missingRows cutoffRows

/-! ## `engine._smart_mode_action` (engine.py:707-752)

The cooldown check against the store and the inventory fetch are oracles
(`onCooldown`, `seasonStats`); `seasonStats` is the inventory entry for the
season — `none` when `inv.get(season)` is missing, otherwise the pair
`(aired_total, aired_downloaded)`.  `eps` carries the
`int(getattr(e, "episode_number", 0) or 0)` value of each episode in the
group; the Python set of positive episode numbers is modelled by `dedup` of
the positive filter (only its size and maximum are consumed).  When the
engine's `sonarr_missing_mode` is `season_packs` rather than `smart` the
function returns `season_pack` unconditionally (`isSmartMode = false`). -/

def airedTotalOf (seasonStats : Option (Int × Int)) : Int :=
  match seasonStats with
  | some s => s.1
  | none => 0

def airedDownloadedOf (seasonStats : Option (Int × Int)) : Int :=
  match seasonStats with
  | some s => s.2
  | none => 0

def smart_mode_action (isSmartMode : Bool) (onCooldown : Bool)
    (seasonStats : Option (Int × Int)) (eps : List Int) : SmartActionKind :=
  if isSmartMode = false then .season_pack
  else if onCooldown then .skip
  else if 0 < airedTotalOf seasonStats ∧ airedDownloadedOf seasonStats = 0 then
    .season_pack
  else
    let episode_numbers := (eps.filter (fun n => 0 < n)).dedup
    if episode_numbers.isEmpty then
      if 3 ≤ eps.length then .season_pack else .episodes
    else
      let highest : Int := episode_numbers.foldl max 0
      let coverage : ℚ :=
        if 0 < highest then (episode_numbers.length : ℚ) / (highest : ℚ) else 0
      if (3 ≤ episode_numbers.length ∧ (6 / 10 : ℚ) ≤ coverage)
          ∨ 6 ≤ episode_numbers.length then
        .season_pack
      else .episodes

/-! ## `state.StateStore.item_on_cooldown` (state.py:368-380)

The stored `last_action_at` column is a string; `datetime.fromisoformat` is
taken as a parameter (`parseIso`), so the contract holds for every parsing
behaviour.  `row` is the looked-up column value (`none`: no row). -/

def item_on_cooldown (parseIso : List Char → Option Int) (now : Int)
    (row : Option (List Char)) (retry_hours : Int) : Bool :=
  match row with
  | none => false
  | some stored =>
    match parseIso stored with
    | none => false
    | some last => decide (now < last + retry_hours * 3600)

/-! ## `state.StateStore.set_arr_api_key` / `get_arr_api_key`
(state.py:203-229)

The Fernet cipher is a parameter: `enc` is `Fernet.encrypt` (total) and
`dec` is `Fernet.decrypt`, returning `none` where the library raises
`InvalidToken`/`ValueError`.  UTF-8 encode/decode round-trips are the
identity on the character lists modelled here.  `get_arr_api_key` strips the
stored token, returns `none` for an empty token or a failed decrypt, and
finally returns `decrypted.strip() or None`. -/

def get_arr_api_key (dec : List Char → Option (List Char))
    (stored : Option (List Char)) : Option (List Char) :=
  match stored with
  | none => none
  | some t =>
    let token := trimChars t
    if token.isEmpty then none
    else
      match dec token with
      | none => none
      | some plain =>
        let r := trimChars plain
        if r.isEmpty then none else some r

/-- `get_arr_api_key` right after `set_arr_api_key` stored `enc k` for the
same `(app_type, instance_id)`. -/
def set_then_get (enc : List Char → List Char)
    (dec : List Char → Option (List Char)) (k : List Char) : Option (List Char) :=
  get_arr_api_key dec (some (enc k))

/-- A concrete cipher satisfying the Fernet interface, used to exhibit
counterexamples: prepend a tag character. -/
def tagEnc (s : List Char) : List Char := 'T' :: s

def tagDec : List Char → Option (List Char)
  | 'T' :: r => some r
  | _ => none

/-! ## `webui._verify_password` (webui.py:96-107)

`hashlib.pbkdf2_hmac` and the padded `base64.urlsafe_b64decode` are
parameters; both return `none` where the library raises (bad alphabet/length
for base64; non-positive iteration count or zero-length key for pbkdf2 — the
source catches every exception and returns `False`).  Byte strings are
modelled as lists of naturals.  `password_hash.split("$", 3)` is modelled by
`pySplitDollar3`; the 4-tuple unpacking raises (→ `False`) unless the split
yields exactly four fields. -/

def pySplitDollar3 (cs : List Char) : List (List Char) :=
  let ps := splitCh '$' cs
  if ps.length ≤ 4 then ps
  else ps.take 3 ++ [List.intercalate ['$'] (ps.drop 3)]

def verify_password
    (pbkdf2 : List Char → List Nat → Int → Nat → Option (List Nat))
    (b64decode : List Char → Option (List Nat))
    (password hash : List Char) : Bool :=
  match pySplitDollar3 hash with
  | [algo, it_s, salt_s, dk_s] =>
    if algo ≠ stringChars "pbkdf2_sha256" then false
    else
      match pyInt? it_s with
      | none => false
      | some iterations =>
        match b64decode salt_s, b64decode dk_s with
        | some salt, some expected =>
          match pbkdf2 password salt iterations expected.length with
          | none => false
          | some got => decide (got = expected)
        | _, _ => false
  | _ => false

/-! # Theorems -/

/-! ## Cap-enforcement lemmas -/

theorem process_count_le (cap : Int) (succ : α → Bool) (l : List α) (n : Nat)
    (hn : (n : Int) ≤ cap) : (((process cap succ l n).1 : Nat) : Int) ≤ cap := by
  induction l generalizing n with
  | nil => simpa [process] using hn
  | cons it rest ih =>
    by_cases h : cap ≤ (n : Int)
    · simp only [process, if_pos h]
      exact hn
    · simp only [process, if_neg h]
      apply ih
      by_cases hs : succ it = true <;> simp [hs] <;> omega

theorem process_suffix (cap : Int) (succ : α → Bool) (l : List α) (n : Nat) :
    (process cap succ l n).2 <:+ l := by
  induction l generalizing n with
  | nil => simp [process]
  | cons it rest ih =>
    by_cases h : cap ≤ (n : Int)
    · simp only [process, if_pos h]
      exact List.suffix_refl _
    · simp only [process, if_neg h]
      exact (ih _).trans (List.suffix_cons it rest)

theorem process_stop (cap : Int) (succ : α → Bool) (l : List α) (n : Nat)
    (h : (process cap succ l n).2 ≠ []) :
    cap ≤ (((process cap succ l n).1 : Nat) : Int) := by
  induction l generalizing n with
  | nil => simp [process] at h
  | cons it rest ih =>
    by_cases hc : cap ≤ (n : Int)
    · simp only [process, if_pos hc]
      exact hc
    · simp only [process, if_neg hc] at h ⊢
      exact ih _ h

theorem process_episodes_inner_le (cap : Int) (succ : α → Bool) (l : List α)
    (n : Nat) (hn : (n : Int) ≤ cap) :
    ((process_episodes_inner cap succ l n : Nat) : Int) ≤ cap := by
  induction l generalizing n with
  | nil => simpa [process_episodes_inner] using hn
  | cons e rest ih =>
    by_cases h : cap ≤ (n : Int)
    · simpa [process_episodes_inner, h] using hn
    · simp only [process_episodes_inner, if_neg h]
      apply ih
      by_cases hs : succ e = true <;> simp [hs] <;> omega

theorem process_season_groups_le (cap : Int) (act : σ × List α → SmartActionKind)
    (packSucc : σ → Bool) (epSucc : α → Bool) (gs : List (σ × List α)) (n : Nat)
    (hn : (n : Int) ≤ cap) :
    (((process_season_groups cap act packSucc epSucc gs n).1 : Nat) : Int) ≤ cap := by
  induction gs generalizing n with
  | nil => simpa [process_season_groups] using hn
  | cons g rest ih =>
    by_cases h : cap ≤ (n : Int)
    · simpa [process_season_groups, h] using hn
    · simp only [process_season_groups, if_neg h]
      cases hact : act g with
      | skip => exact ih _ hn
      | season_pack =>
        apply ih
        by_cases hs : packSucc g.1 = true <;> simp [hs] <;> omega
      | episodes =>
        apply ih
        exact process_episodes_inner_le cap epSucc g.2 n hn

theorem process_season_groups_suffix (cap : Int)
    (act : σ × List α → SmartActionKind) (packSucc : σ → Bool)
    (epSucc : α → Bool) (gs : List (σ × List α)) (n : Nat) :
    (process_season_groups cap act packSucc epSucc gs n).2 <:+ gs := by
  induction gs generalizing n with
  | nil => simp [process_season_groups]
  | cons g rest ih =>
    by_cases h : cap ≤ (n : Int)
    · simp only [process_season_groups, if_pos h]
      exact List.suffix_refl _
    · simp only [process_season_groups, if_neg h]
      cases hact : act g with
      | skip => exact (ih _).trans (List.suffix_cons g rest)
      | season_pack => exact (ih _).trans (List.suffix_cons g rest)
      | episodes => exact (ih _).trans (List.suffix_cons g rest)

theorem process_season_groups_stop (cap : Int)
    (act : σ × List α → SmartActionKind) (packSucc : σ → Bool)
    (epSucc : α → Bool) (gs : List (σ × List α)) (n : Nat)
    (h : (process_season_groups cap act packSucc epSucc gs n).2 ≠ []) :
    cap ≤ (((process_season_groups cap act packSucc epSucc gs n).1 : Nat) : Int) := by
  induction gs generalizing n with
  | nil => simp [process_season_groups] at h
  | cons g rest ih =>
    by_cases hc : cap ≤ (n : Int)
    · simp only [process_season_groups, if_pos hc]
      exact hc
    · simp only [process_season_groups, if_neg hc] at h ⊢
      cases hact : act g with
      | skip => simp only [hact] at h ⊢; exact ih _ h
      | season_pack => simp only [hact] at h ⊢; exact ih _ h
      | episodes => simp only [hact] at h ⊢; exact ih _ h

/-- **C1** (cap obedience): in a single engine cycle for one instance, the
number of missing-kind triggers never exceeds the effective
`max_missing_actions_per_sync` and the number of cutoff-kind triggers never
exceeds the effective `max_cutoff_actions_per_sync`, for every wanted list,
every Sonarr missing mode and every pattern of trigger successes/failures;
moreover, once the missing cap is reached the bucket's remaining items form
an untouched suffix, i.e. the engine stops processing that bucket for the
cycle.  `process` covers Radarr missing, Sonarr `episodes` mode, the
`shows`-mode group loop and the cutoff bucket; `process_season_groups`
covers the `season_packs` and `smart` modes. -/
theorem cap_obedience_per_cycle {α γ σ : Type} (capM capC : Int)
    (hM : 0 ≤ capM) (hC : 0 ≤ capC)
    (missing : List α) (cutoff : List γ) (groups : List (σ × List α))
    (succM : α → Bool) (succC : γ → Bool)
    (act : σ × List α → SmartActionKind) (packSucc : σ → Bool)
    (showSucc : σ × List α → Bool) :
    ((((process capM succM missing 0).1 : Nat) : Int) ≤ capM ∧
      (((process capM showSucc groups 0).1 : Nat) : Int) ≤ capM ∧
      (((process_season_groups capM act packSucc succM groups 0).1 : Nat) : Int) ≤ capM ∧
      (((process capC succC cutoff 0).1 : Nat) : Int) ≤ capC) ∧
    ((process capM succM missing 0).2 <:+ missing ∧
      ((process capM succM missing 0).2 ≠ [] →
        (((process capM succM missing 0).1 : Nat) : Int) = capM) ∧
      (process_season_groups capM act packSucc succM groups 0).2 <:+ groups ∧
      ((process_season_groups capM act packSucc succM groups 0).2 ≠ [] →
        (((process_season_groups capM act packSucc succM groups 0).1 : Nat) : Int) = capM)) := by
  refine ⟨⟨?_, ?_, ?_, ?_⟩, ?_, ?_, ?_, ?_⟩
  · exact process_count_le capM succM missing 0 (by exact_mod_cast hM)
  · exact process_count_le capM showSucc groups 0 (by exact_mod_cast hM)
  · exact process_season_groups_le capM act packSucc succM groups 0 (by exact_mod_cast hM)
  · exact process_count_le capC succC cutoff 0 (by exact_mod_cast hC)
  · exact process_suffix capM succM missing 0
  · intro h
    exact le_antisymm (process_count_le capM succM missing 0 (by exact_mod_cast hM))
      (process_stop capM succM missing 0 h)
  · exact process_season_groups_suffix capM act packSucc succM groups 0
  · intro h
    exact le_antisymm
      (process_season_groups_le capM act packSucc succM groups 0 (by exact_mod_cast hM))
      (process_season_groups_stop capM act packSucc succM groups 0 h)

theorem cap_obedience_per_cycle_witness :
    (0 : Int) ≤ 2 ∧ (0 : Int) ≤ 1 ∧
    (((((process 2 (fun _ : Nat => true) [10, 20, 30] 0).1 : Nat) : Int) ≤ 2 ∧
        ((((process 2 (fun _ : Nat × List Nat => true) [(1, [10])] 0).1 : Nat) : Int) ≤ 2) ∧
        ((((process_season_groups 2 (fun _ : Nat × List Nat => SmartActionKind.episodes)
            (fun _ => true) (fun _ => true) [(1, [10])] 0).1 : Nat) : Int) ≤ 2) ∧
        ((((process 1 (fun _ : Nat => true) [7] 0).1 : Nat) : Int) ≤ 1)) ∧
      ((process 2 (fun _ : Nat => true) [10, 20, 30] 0).2 <:+ [10, 20, 30]) ∧
        ((process 2 (fun _ : Nat => true) [10, 20, 30] 0).2 ≠ [] →
          (((process 2 (fun _ : Nat => true) [10, 20, 30] 0).1 : Nat) : Int) = 2) ∧
        ((process_season_groups 2 (fun _ : Nat × List Nat => SmartActionKind.episodes)
            (fun _ => true) (fun _ => true) [(1, [10])] 0).2 <:+ [(1, [10])]) ∧
        ((process_season_groups 2 (fun _ : Nat × List Nat => SmartActionKind.episodes)
            (fun _ => true) (fun _ => true) [(1, [10])] 0).2 ≠ [] →
          (((process_season_groups 2 (fun _ : Nat × List Nat => SmartActionKind.episodes)
              (fun _ => true) (fun _ => true) [(1, [10])] 0).1 : Nat) : Int) = 2)) :=
  ⟨by decide, by decide,
    cap_obedience_per_cycle 2 1 (by decide) (by decide) [10, 20, 30] [7] [(1, [10])]
      (fun _ => true) (fun _ => true) (fun _ => SmartActionKind.episodes)
      (fun _ => true) (fun _ => true)⟩

/-! ## Release-gate wake-up (claim C2) -/

theorem clampInterval_ge (x : Int) : 15 ≤ clampInterval x := le_max_left _ _

/-- Counterexample to **C2** as stated: with `now = 0`, one recent missing
movie released at `now − 2 h` and `min_hours_after_release = 8`, the item is
skipped as not released and the collected wake-up is `now + 6 h = 21600`,
but the stored next sync time is `now + interval = 900` seconds (15
minutes), not `now + 6 h` as the claim asserts — the wake-up only replaces
the default when it is strictly earlier. -/
theorem release_gate_wakeup_cex :
    release_gate_skips 0 8 (some (-7200)) = true ∧
    collect_wakeup 0 8 [some (-7200)] = some 21600 ∧
    compute_next_sync 0 (clampInterval 15) (collect_wakeup 0 8 [some (-7200)]) = 900 ∧
    (900 : Int) ≠ 21600 := by decide

/-- **C2** (amended): in the claim's scenario the item is skipped as not
released and the collected wake-up is `now + 6 h`, but since that instant
is not strictly within the `(now, now + 15 min)` window the stored next
sync time is the default `now + interval_minutes`; in general the next sync
defaults to `now + interval_minutes` and is replaced by `max(w, now + 30 s)`
exactly when the collected wake-up `w` lies strictly within that window. -/
theorem release_gate_wakeup_amended :
    (∀ now : Int,
      release_gate_skips now 8 (some (now - 7200)) = true ∧
      collect_wakeup now 8 [some (now - 7200)] = some (now + 21600) ∧
      compute_next_sync now (clampInterval 15) (some (now + 21600)) = now + 900) ∧
    (∀ now rawItv w : Int,
      compute_next_sync now (clampInterval rawItv) none
          = now + clampInterval rawItv * 60 ∧
      (now < w → w < now + clampInterval rawItv * 60 →
        compute_next_sync now (clampInterval rawItv) (some w) = max w (now + 30)) ∧
      (¬(now < w ∧ w < now + clampInterval rawItv * 60) →
        compute_next_sync now (clampInterval rawItv) (some w)
          = now + clampInterval rawItv * 60)) := by
  constructor
  · intro now
    refine ⟨?_, ?_, ?_⟩
    · simp only [release_gate_skips, if_pos (by omega : (0 : Int) < 8)]
      rw [decide_eq_true_eq]
      omega
    · simp only [collect_wakeup, List.foldl]
      rw [if_neg (by omega : ¬(8 : Int) ≤ 0),
        if_neg (by omega : ¬(now - 7200 < now - 2 * 86400 ∨ now < now - 7200)),
        if_neg (by omega : ¬now - 7200 + 8 * 3600 ≤ now)]
      norm_num
      omega
    · have hc : clampInterval 15 = 15 := by decide
      simp only [compute_next_sync, hc]
      rw [if_pos (by omega : now < now + 21600),
        if_neg (by omega : ¬max (now + 21600) (now + 30) < now + 15 * 60)]
      norm_num
  · intro now rawItv w
    have h15 : 15 ≤ clampInterval rawItv := clampInterval_ge rawItv
    refine ⟨rfl, ?_, ?_⟩
    · intro h1 h2
      simp only [compute_next_sync]
      rw [if_pos h1, if_pos (by
        have : now + 30 < now + clampInterval rawItv * 60 := by nlinarith
        exact max_lt h2 this)]
    · intro h
      simp only [compute_next_sync]
      by_cases h1 : now < w
      · rw [if_pos h1, if_neg ?_]
        have h2 : ¬ w < now + clampInterval rawItv * 60 := fun hw => h ⟨h1, hw⟩
        exact fun hlt => h2 (lt_of_le_of_lt (le_max_left _ _) hlt)
      · rw [if_neg h1]

theorem release_gate_wakeup_amended_witness :
    ((5 : Int) < 100 ∧ (100 : Int) < 5 + clampInterval 20 * 60) ∧
    compute_next_sync 5 (clampInterval 20) (some 100) = max 100 (5 + 30) :=
  ⟨⟨by decide, by decide⟩,
    ((release_gate_wakeup_amended.2 5 20 100).2.1 (by decide) (by decide))⟩

/-! ## Quiet hours (claim C3) -/

/-- **C3** (code bug): the claim — backed by the repository's own test
`test_quiet_hours.py`, which calls `_quiet_hours_end_utc` with a
`quiet_timezone` argument — requires the engine to evaluate quiet hours in
the configured fixed-offset timezone (`-05:00`), making `now_utc = 08:00`
(here `28800`) quiet with end `11:00 UTC` (`39600`).  The shipped
`src/seekarr/engine.py:62` takes no timezone argument and uses the host's
local timezone: on a UTC host (`hostOffsetMin = 0`) the same instant is NOT
quiet (result `none`); the claimed result appears only if the host happens
to sit at offset `-300` minutes.  The `now_utc = 11:00` (`39600`) non-quiet
half of the claim holds on a UTC host as well. -/
theorem quiet_hours_host_local_bug :
    quiet_hours_end_utc 0 28800 (stringChars "23:00") (stringChars "06:00") = none ∧
    quiet_hours_end_utc (-300) 28800 (stringChars "23:00") (stringChars "06:00")
      = some 39600 ∧
    quiet_hours_end_utc 0 39600 (stringChars "23:00") (stringChars "06:00") = none ∧
    quiet_hours_end_utc (-300) 39600 (stringChars "23:00") (stringChars "06:00") = none := by
  decide

/-! ## Cold-start prioritization lemmas (claim C4) -/

theorem queue_update_mem (q : Int → List ((Int × Int) × β))
    (g0 : (Int × Int) × β) (h : (Int × Int) × β) (t : List ((Int × Int) × β))
    (hmem : ∀ s g, g ∈ q s → seriesOfGroup g = s)
    (hq : q (seriesOfGroup g0) = h :: t) :
    ∀ s g, g ∈ (if s = seriesOfGroup g0 then t else q s) → seriesOfGroup g = s := by
  intro s g hg
  by_cases hs : s = seriesOfGroup g0
  · rw [if_pos hs] at hg
    have hmq : g ∈ q (seriesOfGroup g0) := by
      rw [hq]; exact List.mem_cons_of_mem h hg
    rw [hs]
    exact hmem (seriesOfGroup g0) g hmq
  · rw [if_neg hs] at hg
    exact hmem s g hg

theorem queue_update_len (q : Int → List ((Int × Int) × β))
    (g0 : (Int × Int) × β) (h : (Int × Int) × β) (t : List ((Int × Int) × β))
    (rest : List ((Int × Int) × β))
    (hlen : ∀ s, (q s).length
      = ((g0 :: rest).filter (fun g => seriesOfGroup g = s)).length)
    (hq : q (seriesOfGroup g0) = h :: t) :
    ∀ s, (if s = seriesOfGroup g0 then t else q s).length
      = (rest.filter (fun g => seriesOfGroup g = s)).length := by
  intro s
  by_cases hs : s = seriesOfGroup g0
  · rw [if_pos hs]
    have hg := hlen (seriesOfGroup g0)
    rw [List.filter_cons, if_pos (by simp), hq] at hg
    rw [hs]
    simpa using hg
  · rw [if_neg hs, hlen s, List.filter_cons,
      if_neg (by simpa using fun hEq => hs hEq.symm)]

theorem popWalk_map_series (l : List ((Int × Int) × β))
    (q : Int → List ((Int × Int) × β))
    (hmem : ∀ s g, g ∈ q s → seriesOfGroup g = s)
    (hlen : ∀ s, (q s).length = (l.filter (fun g => seriesOfGroup g = s)).length) :
    (popWalk q l).map seriesOfGroup = l.map seriesOfGroup := by
  induction l generalizing q with
  | nil => simp [popWalk]
  | cons g rest ih =>
    have hg : (q (seriesOfGroup g)).length
        = ((g :: rest).filter (fun x => seriesOfGroup x = seriesOfGroup g)).length :=
      hlen (seriesOfGroup g)
    rw [List.filter_cons, if_pos (by simp)] at hg
    cases hq : q (seriesOfGroup g) with
    | nil => rw [hq] at hg; simp at hg
    | cons h t =>
      have hh : seriesOfGroup h = seriesOfGroup g :=
        hmem (seriesOfGroup g) h (by rw [hq]; exact List.mem_cons_self h t)
      simp only [popWalk, hq, List.map_cons, hh]
      congr 1
      exact ih _ (queue_update_mem q g h t hmem hq)
        (queue_update_len q g h t rest hlen hq)

theorem popWalk_filter (l : List ((Int × Int) × β))
    (q : Int → List ((Int × Int) × β))
    (hmem : ∀ s g, g ∈ q s → seriesOfGroup g = s)
    (hlen : ∀ s, (q s).length = (l.filter (fun g => seriesOfGroup g = s)).length)
    (s : Int) :
    (popWalk q l).filter (fun g => seriesOfGroup g = s) = q s := by
  induction l generalizing q with
  | nil =>
    have h0 : (q s).length = 0 := by simpa using hlen s
    simp [popWalk, List.length_eq_zero.mp h0]
  | cons g rest ih =>
    have hg : (q (seriesOfGroup g)).length
        = ((g :: rest).filter (fun x => seriesOfGroup x = seriesOfGroup g)).length :=
      hlen (seriesOfGroup g)
    rw [List.filter_cons, if_pos (by simp)] at hg
    cases hq : q (seriesOfGroup g) with
    | nil => rw [hq] at hg; simp at hg
    | cons h t =>
      have hh : seriesOfGroup h = seriesOfGroup g :=
        hmem (seriesOfGroup g) h (by rw [hq]; exact List.mem_cons_self h t)
      have hrec :
          (popWalk (fun s' => if s' = seriesOfGroup g then t else q s') rest).filter
            (fun x => seriesOfGroup x = s)
          = (if s = seriesOfGroup g then t else q s) :=
        ih _ (queue_update_mem q g h t hmem hq) (queue_update_len q g h t rest hlen hq)
      by_cases hs : s = seriesOfGroup g
      · simp only [popWalk, hq, List.filter_cons]
        rw [if_pos (by simp [hh, hs]), hrec, if_pos hs, hs, hq]
      · simp only [popWalk, hq, List.filter_cons]
        rw [if_neg (by simpa using fun hEq : seriesOfGroup h = s => hs (hh ▸ hEq).symm),
          hrec, if_neg hs]

theorem prioritize_queue_mem (grouped : List ((Int × Int) × β)) (cold : List Int)
    (s : Int) (g : (Int × Int) × β)
    (hg : g ∈ (if s ∈ cold then
        (grouped.filter (fun x => seriesOfGroup x = s)).insertionSort seasonLe
      else grouped.filter (fun x => seriesOfGroup x = s))) :
    seriesOfGroup g = s := by
  by_cases hc : s ∈ cold
  · rw [if_pos hc, List.mem_insertionSort] at hg
    simpa using (List.mem_filter.mp hg).2
  · rw [if_neg hc] at hg
    simpa using (List.mem_filter.mp hg).2

theorem prioritize_queue_len (grouped : List ((Int × Int) × β)) (cold : List Int)
    (s : Int) :
    (if s ∈ cold then
        (grouped.filter (fun x => seriesOfGroup x = s)).insertionSort seasonLe
      else grouped.filter (fun x => seriesOfGroup x = s)).length
    = (grouped.filter (fun x => seriesOfGroup x = s)).length := by
  by_cases hc : s ∈ cold
  · rw [if_pos hc, List.length_insertionSort]
  · rw [if_neg hc]

/-- **C4** (cold-start prioritization, modelled from the spec — see
`prioritize_cold_start_seasons`): the sequence of series across slots is
preserved; for every cold-start series its groups are rearranged within its
own slots into ascending season order (in particular the earliest season
moves to the front of that series' groups); groups of non-cold series are
untouched; and the claim's concrete example rearranges
`[(101,3),(202,1),(101,1),(101,2),(202,2)]` with cold series `101` into
`[(101,1),(202,1),(101,2),(101,3),(202,2)]`. -/
theorem cold_start_prioritization :
    (∀ (β : Type) (grouped : List ((Int × Int) × β)) (cold : List Int),
      (prioritize_cold_start_seasons grouped cold).map seriesOfGroup
        = grouped.map seriesOfGroup) ∧
    (∀ (β : Type) (grouped : List ((Int × Int) × β)) (cold : List Int) (s : Int),
      s ∈ cold →
      (prioritize_cold_start_seasons grouped cold).filter
          (fun g => seriesOfGroup g = s)
        = (grouped.filter (fun g => seriesOfGroup g = s)).insertionSort seasonLe) ∧
    (∀ (β : Type) (grouped : List ((Int × Int) × β)) (cold : List Int) (s : Int),
      s ∉ cold →
      (prioritize_cold_start_seasons grouped cold).filter
          (fun g => seriesOfGroup g = s)
        = grouped.filter (fun g => seriesOfGroup g = s)) ∧
    (∀ (β : Type) (grouped : List ((Int × Int) × β)) (cold : List Int) (s : Int),
      s ∈ cold →
      ∀ (h : (Int × Int) × β) (rest : List ((Int × Int) × β)),
      (prioritize_cold_start_seasons grouped cold).filter
          (fun g => seriesOfGroup g = s) = h :: rest →
      ∀ g ∈ grouped, seriesOfGroup g = s → seasonOfGroup h ≤ seasonOfGroup g) ∧
    prioritize_cold_start_seasons (β := Unit)
        [((101, 3), ()), ((202, 1), ()), ((101, 1), ()), ((101, 2), ()), ((202, 2), ())]
        [101]
      = [((101, 1), ()), ((202, 1), ()), ((101, 2), ()), ((101, 3), ()), ((202, 2), ())] := by
  have hfil : ∀ (β : Type) (grouped : List ((Int × Int) × β)) (cold : List Int)
      (s : Int),
      (prioritize_cold_start_seasons grouped cold).filter
          (fun g => seriesOfGroup g = s)
        = (if s ∈ cold then
            (grouped.filter (fun x => seriesOfGroup x = s)).insertionSort seasonLe
          else grouped.filter (fun x => seriesOfGroup x = s)) := by
    intro β grouped cold s
    exact popWalk_filter grouped _
      (fun s' g hg => prioritize_queue_mem grouped cold s' g hg)
      (fun s' => prioritize_queue_len grouped cold s') s
  refine ⟨?_, ?_, ?_, ?_, by decide⟩
  · intro β grouped cold
    exact popWalk_map_series grouped _
      (fun s' g hg => prioritize_queue_mem grouped cold s' g hg)
      (fun s' => prioritize_queue_len grouped cold s')
  · intro β grouped cold s hs
    rw [hfil, if_pos hs]
  · intro β grouped cold s hs
    rw [hfil, if_neg hs]
  · intro β grouped cold s hs h rest hcons g hg hgs
    have hsorted : List.Sorted seasonLe
        ((grouped.filter (fun x => seriesOfGroup x = s)).insertionSort seasonLe) :=
      List.sorted_insertionSort seasonLe _
    rw [hfil, if_pos hs] at hcons
    rw [hcons] at hsorted
    have hgmem : g ∈ h :: rest := by
      rw [← hcons, List.mem_insertionSort]
      exact List.mem_filter.mpr ⟨hg, by simpa using hgs⟩
    rcases List.mem_cons.mp hgmem with hgh | hgr
    · rw [hgh]
    · exact (List.sorted_cons.mp hsorted).1 g hgr

theorem cold_start_prioritization_witness :
    ((101 : Int) ∈ ([101] : List Int)) ∧
    (prioritize_cold_start_seasons (β := Unit)
        [((101, 3), ()), ((202, 1), ()), ((101, 1), ()), ((101, 2), ()), ((202, 2), ())]
        [101]).filter (fun g => seriesOfGroup g = 101)
      = ([((101, 3), ()), ((202, 1), ()), ((101, 1), ()), ((101, 2), ()),
          ((202, 2), ())].filter
            (fun g => seriesOfGroup g = (101 : Int))).insertionSort seasonLe :=
  ⟨by decide,
    cold_start_prioritization.2.1 Unit
      [((101, 3), ()), ((202, 1), ()), ((101, 1), ()), ((101, 2), ()), ((202, 2), ())]
      [101] 101 (by decide)⟩

/-! ## Season inventory (claim C5) -/

/-- Counterexample to **C5** as stated: at the claim's input (three season-1
episodes airing 2025-01-01, 2025-01-02 and 2099-01-01 with `hasFile` true,
true, false, evaluated at a `now` between those dates) the shipped
`fetch_series_season_inventory` returns aired_total 2 and aired_downloaded 2
— both aired episodes have a file — and produces no `unaired_total` counter
at all (unaired episodes are skipped by the `continue`), whereas the claim
asserts aired_downloaded 1 and an `unaired_total` of 1. -/
theorem season_inventory_cex :
    fetch_series_season_inventory 1800000000
        [⟨1, some (some 1735689600), true⟩, ⟨1, some (some 1735776000), true⟩,
          ⟨1, some (some 4070908800), false⟩]
      = [(1, 2, 2)] ∧
    ¬ fetch_series_season_inventory 1800000000
        [⟨1, some (some 1735689600), true⟩, ⟨1, some (some 1735776000), true⟩,
          ⟨1, some (some 4070908800), false⟩]
      = [(1, 2, 1)] := by decide

/-- **C5** (amended): at the claim's input and for every `now` between the
second and third air dates, `fetch_series_season_inventory` returns exactly
one season entry, season 1 with aired_total 2 and aired_downloaded 2; the
unaired 2099 episode is skipped entirely and no unaired counter exists in
the result.  (The repository's own test `test_arr.py` expects an
`unaired_total` key — with `hasFile` false, true, false — which the shipped
code never produces.) -/
theorem season_inventory_amended (now : Int)
    (h1 : 1735776000 ≤ now) (h2 : now < 4070908800) :
    fetch_series_season_inventory now
        [⟨1, some (some 1735689600), true⟩, ⟨1, some (some 1735776000), true⟩,
          ⟨1, some (some 4070908800), false⟩]
      = [(1, 2, 2)] := by
  have e1 : ((1735689600 : Int) ≤ now) = True := by simp; omega
  have e2 : ((1735776000 : Int) ≤ now) = True := by simp; omega
  have e3 : ((4070908800 : Int) ≤ now) = False := by simp; omega
  simp [fetch_series_season_inventory, invBump, e1, e2, e3]

theorem season_inventory_amended_witness :
    (1735776000 : Int) ≤ 1800000000 ∧ (1800000000 : Int) < 4070908800 ∧
    fetch_series_season_inventory 1800000000
        [⟨1, some (some 1735689600), true⟩, ⟨1, some (some 1735776000), true⟩,
          ⟨1, some (some 4070908800), false⟩]
      = [(1, 2, 2)] :=
  ⟨by decide, by decide, season_inventory_amended 1800000000 (by decide) (by decide)⟩

/-! ## Missing-wins precedence (claim C6) -/

theorem dlookup_dinsert_self (k : Int) (v : WantedKind)
    (st : List (Int × WantedKind)) : dlookup k (dinsert k v st) = some v := by
  induction st with
  | nil => simp [dinsert, dlookup]
  | cons p rest ih =>
    by_cases h : p.1 = k
    · simp [dinsert, dlookup, h]
    · cases p with
      | mk k' v' =>
        simp only at h
        simp [dinsert, dlookup, h, ih]

theorem dlookup_dinsert_ne (k k' : Int) (v : WantedKind)
    (st : List (Int × WantedKind)) (h : k' ≠ k) :
    dlookup k (dinsert k' v st) = dlookup k st := by
  induction st with
  | nil => simp [dinsert, dlookup, h]
  | cons p rest ih =>
    cases p with
    | mk k0 v0 =>
      by_cases h0 : k0 = k'
      · simp [dinsert, dlookup, h0, h]
      · by_cases h1 : k0 = k
        · simp [dinsert, dlookup, h0, h1, Ne.symm h]
        · simp [dinsert, dlookup, h0, h1, ih]

theorem keyMem_eq_isSome (k : Int) (st : List (Int × WantedKind)) :
    keyMem k st = (dlookup k st).isSome := by
  induction st with
  | nil => simp [keyMem, dlookup]
  | cons p rest ih =>
    cases p with
    | mk k0 v0 =>
      by_cases h : k0 = k
      · simp [keyMem, dlookup, h]
      · simp [keyMem, dlookup, h] at ih ⊢
        exact ih

theorem wantedStep_preserves_missing (idOf : ρ → Int) (keeps : ρ → Bool)
    (kind : WantedKind) (st : List (Int × WantedKind)) (r : ρ) (k : Int)
    (h : dlookup k st = some .missing) :
    dlookup k (wantedStep idOf keeps kind st r) = some .missing := by
  unfold wantedStep
  by_cases h0 : idOf r = 0
  · simp [h0, h]
  · simp only [if_neg h0]
    by_cases hcut : kind = .cutoff ∧ keyMem (idOf r) st = true
    · simp [hcut, h]
    · rw [if_neg (by simpa using fun h1 h2 => hcut ⟨h1, h2⟩)]
      by_cases hk : keeps r = true
      · rw [if_pos hk]
        by_cases hkk : idOf r = k
        · have hm : kind = .missing := by
            cases kind
            · rfl
            · exact absurd ⟨rfl, by rw [keyMem_eq_isSome, hkk, h]; rfl⟩ hcut
          rw [hm, hkk]
          exact dlookup_dinsert_self k .missing st
        · rw [dlookup_dinsert_ne k (idOf r) kind st hkk]
          exact h
      · simp [hk, h]

theorem foldl_wantedStep_preserves_missing (idOf : ρ → Int) (keeps : ρ → Bool)
    (kind : WantedKind) (rows : List ρ) (st : List (Int × WantedKind)) (k : Int)
    (h : dlookup k st = some .missing) :
    dlookup k (rows.foldl (wantedStep idOf keeps kind) st) = some .missing := by
  induction rows generalizing st with
  | nil => simpa using h
  | cons r rest ih =>
    simp only [List.foldl_cons]
    exact ih _ (wantedStep_preserves_missing idOf keeps kind st r k h)

theorem missing_fold_establishes (idOf : ρ → Int) (keeps : ρ → Bool)
    (rows : List ρ) (st : List (Int × WantedKind)) (k : Int) (r : ρ)
    (hr : r ∈ rows) (hk : idOf r = k) (h0 : ¬ k = 0) (hkeep : keeps r = true) :
    dlookup k (rows.foldl (wantedStep idOf keeps .missing) st) = some .missing := by
  induction rows generalizing st with
  | nil => cases hr
  | cons a rest ih =>
    simp only [List.foldl_cons]
    rcases List.mem_cons.mp hr with hra | hra
    · have hstep : dlookup k (wantedStep idOf keeps .missing st a) = some .missing := by
        unfold wantedStep
        rw [if_neg (by rw [← hra, hk]; exact h0)]
        rw [if_neg (by simp)]
        rw [if_pos (by rw [← hra]; exact hkeep), ← hra, hk]
        exact dlookup_dinsert_self k _ st
      exact foldl_wantedStep_preserves_missing idOf keeps .missing rest _ k hstep
    · exact ih _ hra

theorem mem_keys_dinsert (a k : Int) (v : WantedKind) (st : List (Int × WantedKind)) :
    a ∈ (dinsert k v st).map Prod.fst ↔ a ∈ st.map Prod.fst ∨ a = k := by
  induction st with
  | nil => simp [dinsert]
  | cons p rest ih =>
    cases p with
    | mk k0 v0 =>
      by_cases h0 : k0 = k
      · simp [dinsert, h0]
        tauto
      · simp [dinsert, h0, ih]
        tauto

theorem nodup_keys_dinsert (k : Int) (v : WantedKind) (st : List (Int × WantedKind))
    (h : (st.map Prod.fst).Nodup) : ((dinsert k v st).map Prod.fst).Nodup := by
  induction st with
  | nil => simp [dinsert]
  | cons p rest ih =>
    cases p with
    | mk k0 v0 =>
      rw [List.map_cons, List.nodup_cons] at h
      by_cases h0 : k0 = k
      · simp only [dinsert, if_pos h0, List.map_cons, List.nodup_cons]
        exact ⟨h0 ▸ h.1, h.2⟩
      · simp only [dinsert, if_neg h0, List.map_cons, List.nodup_cons]
        refine ⟨?_, ih h.2⟩
        rw [mem_keys_dinsert]
        rintro (hmem | hEq)
        · exact h.1 hmem
        · exact h0 hEq

theorem nodup_keys_wantedStep (idOf : ρ → Int) (keeps : ρ → Bool)
    (kind : WantedKind) (st : List (Int × WantedKind)) (r : ρ)
    (h : (st.map Prod.fst).Nodup) :
    ((wantedStep idOf keeps kind st r).map Prod.fst).Nodup := by
  unfold wantedStep
  by_cases h0 : idOf r = 0
  · simpa [h0] using h
  · simp only [if_neg h0]
    by_cases hcut : kind = .cutoff ∧ keyMem (idOf r) st = true
    · simpa [hcut] using h
    · rw [if_neg (by simpa using fun h1 h2 => hcut ⟨h1, h2⟩)]
      by_cases hk : keeps r = true
      · rw [if_pos hk]
        exact nodup_keys_dinsert (idOf r) kind st h
      · simpa [hk] using h

theorem nodup_keys_foldl_wantedStep (idOf : ρ → Int) (keeps : ρ → Bool)
    (kind : WantedKind) (rows : List ρ) (st : List (Int × WantedKind))
    (h : (st.map Prod.fst).Nodup) :
    ((rows.foldl (wantedStep idOf keeps kind) st).map Prod.fst).Nodup := by
  induction rows generalizing st with
  | nil => simpa using h
  | cons r rest ih =>
    simp only [List.foldl_cons]
    exact ih _ (nodup_keys_wantedStep idOf keeps kind st r h)

theorem fetch_wanted_missing_wins (idOf : ρ → Int) (keeps : ρ → Bool)
    (mrows crows : List ρ) (k : Int) (r : ρ)
    (hr : r ∈ mrows) (hk : idOf r = k) (h0 : ¬ k = 0) (hkeep : keeps r = true) :
    dlookup k (fetch_wanted idOf keeps mrows crows) = some .missing := by
  unfold fetch_wanted
  exact foldl_wantedStep_preserves_missing idOf keeps .cutoff crows _ k
    (missing_fold_establishes idOf keeps mrows [] k r hr hk h0 hkeep)

theorem fetch_wanted_nodup_keys (idOf : ρ → Int) (keeps : ρ → Bool)
    (mrows crows : List ρ) :
    ((fetch_wanted idOf keeps mrows crows).map Prod.fst).Nodup := by
  unfold fetch_wanted
  exact nodup_keys_foldl_wantedStep idOf keeps .cutoff crows _
    (nodup_keys_foldl_wantedStep idOf keeps .missing mrows [] (by simp))

/-- Counterexample to **C6** as stated: the id `1` appears in both the
missing and the cutoff wanted lists (both rows carry `id = 1`), yet the
produced record has `wanted_kind = cutoff`: the missing occurrence carries a
row-level `monitored = False` and is dropped by the monitored filter, after
which the cutoff occurrence (row-level `monitored = True`, no library
metadata) is materialized. -/
theorem missing_wins_cex :
    movieIdOf ⟨some 1, none, some false, none⟩ = 1 ∧
    movieIdOf ⟨some 1, none, some true, none⟩ = 1 ∧
    fetch_wanted_movies (fun _ => none) [⟨some 1, none, some false, none⟩]
        [⟨some 1, none, some true, none⟩]
      = [(1, WantedKind.cutoff)] := by decide

/-- **C6** (amended): whenever an id appears in both the missing and the
cutoff lists *and its missing occurrence is materialized* (usable id, not
dropped by the monitored filters), the produced record for that id has
`wanted_kind = missing` — regardless of the cutoff rows; and no id ever
yields two records (the output keys are pairwise distinct), for both
`fetch_wanted_movies` and `fetch_wanted_episodes`. -/
theorem missing_wins_amended :
    (∀ (meta : Int → Option Bool) (mrows crows : List MovieRow) (k : Int)
      (r : MovieRow), r ∈ mrows → movieIdOf r = k → ¬ k = 0 →
      ¬ movieMonitoredOf meta r = some false →
      dlookup k (fetch_wanted_movies meta mrows crows) = some .missing) ∧
    (∀ (meta : Int → Option Bool) (mrows crows : List MovieRow),
      ((fetch_wanted_movies meta mrows crows).map Prod.fst).Nodup) ∧
    (∀ (lk : Int → Option Bool) (mrows crows : List EpisodeWantedRow) (k : Int)
      (r : EpisodeWantedRow), r ∈ mrows → episodeIdOf r = k → ¬ k = 0 →
      episodeKeeps lk r = true →
      dlookup k (fetch_wanted_episodes lk mrows crows) = some .missing) ∧
    (∀ (lk : Int → Option Bool) (mrows crows : List EpisodeWantedRow),
      ((fetch_wanted_episodes lk mrows crows).map Prod.fst).Nodup) := by
  refine ⟨?_, ?_, ?_, ?_⟩
  · intro meta mrows crows k r hr hk h0 hmon
    exact fetch_wanted_missing_wins movieIdOf _ mrows crows k r hr hk h0
      (decide_eq_true hmon)
  · intro meta mrows crows
    exact fetch_wanted_nodup_keys movieIdOf _ mrows crows
  · intro lk mrows crows k r hr hk h0 hkeep
    exact fetch_wanted_missing_wins episodeIdOf _ mrows crows k r hr hk h0 hkeep
  · intro lk mrows crows
    exact fetch_wanted_nodup_keys episodeIdOf _ mrows crows

theorem missing_wins_amended_witness :
    ((⟨some 5, none, none, none⟩ : MovieRow)
        ∈ ([⟨some 5, none, none, none⟩] : List MovieRow)) ∧
    movieIdOf ⟨some 5, none, none, none⟩ = 5 ∧ ¬ (5 : Int) = 0 ∧
    ¬ movieMonitoredOf (fun _ => none) ⟨some 5, none, none, none⟩ = some false ∧
    dlookup 5 (fetch_wanted_movies (fun _ => none) [⟨some 5, none, none, none⟩]
        [⟨some 5, none, some true, none⟩]) = some .missing :=
  ⟨by decide, by decide, by decide, by decide,
    missing_wins_amended.1 (fun _ => none) [⟨some 5, none, none, none⟩]
      [⟨some 5, none, some true, none⟩] 5 ⟨some 5, none, none, none⟩
      (by decide) (by decide) (by decide) (by decide)⟩

/-! ## Smart-mode season decision (claim C7) -/

theorem le_foldl_max (l : List Int) (a : Int) : a ≤ l.foldl max a := by
  induction l generalizing a with
  | nil => simp
  | cons x rest ih => exact le_trans (le_max_left a x) (ih (max a x))

theorem mem_le_foldl_max (l : List Int) (a x : Int) (hx : x ∈ l) :
    x ≤ l.foldl max a := by
  induction l generalizing a with
  | nil => cases hx
  | cons y rest ih =>
    rcases List.mem_cons.mp hx with h | h
    · rw [List.foldl_cons]
      exact le_trans (h ▸ le_max_right a y) (le_foldl_max rest (max a y))
    · exact ih (max a y) h

theorem foldl_max_mem (l : List Int) (a : Int) :
    l.foldl max a = a ∨ l.foldl max a ∈ l := by
  induction l generalizing a with
  | nil => exact Or.inl rfl
  | cons x rest ih =>
    rw [List.foldl_cons]
    rcases ih (max a x) with h | h
    · by_cases hax : a ≤ x
      · right
        rw [h, max_eq_right hax]
        exact List.mem_cons_self x rest
      · left
        rw [h, max_eq_left (le_of_not_le hax)]
    · exact Or.inr (List.mem_cons_of_mem x h)

theorem dedup_toFinset_eq (l : List Int) : l.dedup.toFinset = l.toFinset :=
  List.toFinset.ext_iff.mpr fun _ => List.mem_dedup

theorem foldl_max_eq_max' (l : List Int) (hpos : ∀ x ∈ l, 0 < x)
    (hne : l.toFinset.Nonempty) :
    l.foldl max 0 = l.toFinset.max' hne := by
  apply le_antisymm
  · rcases foldl_max_mem l 0 with h | h
    · obtain ⟨y, hy⟩ := hne
      rw [h]
      exact le_trans (le_of_lt (hpos y (List.mem_toFinset.mp hy)))
        (Finset.le_max' _ y hy)
    · exact Finset.le_max' _ _ (List.mem_toFinset.mpr h)
  · exact mem_le_foldl_max l 0 _ (List.mem_toFinset.mp (Finset.max'_mem _ hne))

/-- **C7** (smart-mode season decision): for a season group in `smart` mode
that is not on cooldown, with `S` the set of positive missing episode
numbers (assumed non-empty, so its maximum exists): if the inventory shows
`aired_total > 0` and `aired_downloaded = 0` the decision is `season_pack`;
otherwise the decision is `season_pack` exactly when `card S ≥ 3` and
`card S / max S ≥ 0.6`, or `card S ≥ 6` — and per-episode otherwise. -/
theorem smart_mode_season_decision (seasonStats : Option (Int × Int))
    (eps : List Int)
    (hne : ((eps.filter (fun n => 0 < n)).toFinset).Nonempty) :
    (0 < airedTotalOf seasonStats ∧ airedDownloadedOf seasonStats = 0 →
      smart_mode_action true false seasonStats eps = .season_pack) ∧
    (¬ (0 < airedTotalOf seasonStats ∧ airedDownloadedOf seasonStats = 0) →
      (smart_mode_action true false seasonStats eps = .season_pack ↔
        ((3 ≤ ((eps.filter (fun n => 0 < n)).toFinset).card ∧
          (6 / 10 : ℚ) ≤ (((eps.filter (fun n => 0 < n)).toFinset).card : ℚ)
            / ((((eps.filter (fun n => 0 < n)).toFinset).max' hne : Int) : ℚ)) ∨
        6 ≤ ((eps.filter (fun n => 0 < n)).toFinset).card)) ∧
      (smart_mode_action true false seasonStats eps = .episodes ↔
        ¬ ((3 ≤ ((eps.filter (fun n => 0 < n)).toFinset).card ∧
          (6 / 10 : ℚ) ≤ (((eps.filter (fun n => 0 < n)).toFinset).card : ℚ)
            / ((((eps.filter (fun n => 0 < n)).toFinset).max' hne : Int) : ℚ)) ∨
        6 ≤ ((eps.filter (fun n => 0 < n)).toFinset).card))) := by
  constructor
  · intro h
    unfold smart_mode_action
    rw [if_neg (by simp), if_neg (by simp), if_pos h]
  · intro h
    have hfe : (eps.filter (fun n => 0 < n)) ≠ [] := by
      obtain ⟨y, hy⟩ := hne
      exact List.ne_nil_of_mem (List.mem_toFinset.mp hy)
    have hd : ((eps.filter (fun n => 0 < n)).dedup).isEmpty = false := by
      rw [List.isEmpty_eq_false_iff_exists_mem]
      obtain ⟨y, hy⟩ := List.exists_mem_of_ne_nil _ hfe
      exact ⟨y, List.mem_dedup.mpr hy⟩
    have hpos : ∀ x ∈ (eps.filter (fun n => 0 < n)).dedup, 0 < x := by
      intro x hx
      have := List.mem_dedup.mp hx
      simpa using (List.mem_filter.mp this).2
    have hne2 : ((eps.filter (fun n => 0 < n)).dedup).toFinset.Nonempty := by
      rw [dedup_toFinset_eq]
      exact hne
    have hmax :
        ((eps.filter (fun n => 0 < n)).dedup).foldl max 0
          = ((eps.filter (fun n => 0 < n)).toFinset).max' hne := by
      rw [foldl_max_eq_max' _ hpos hne2]
      congr 1
      exact dedup_toFinset_eq _
    have hcard :
        ((eps.filter (fun n => 0 < n)).dedup).length
          = ((eps.filter (fun n => 0 < n)).toFinset).card :=
      (List.card_toFinset _).symm
    have hqpos : (0 : Int) < ((eps.filter (fun n => 0 < n)).dedup).foldl max 0 := by
      obtain ⟨y, hy⟩ := List.exists_mem_of_ne_nil _ hfe
      have hyd : y ∈ (eps.filter (fun n => 0 < n)).dedup := List.mem_dedup.mpr hy
      exact lt_of_lt_of_le (hpos y hyd) (mem_le_foldl_max _ 0 y hyd)
    unfold smart_mode_action
    rw [if_neg (by simp), if_neg (by simp), if_neg h]
    simp only [hd, Bool.false_eq_true, if_false, if_pos hqpos]
    rw [hcard, hmax]
    constructor
    · constructor
      · intro hif
        by_contra hcond
        rw [if_neg hcond] at hif
        cases hif
      · intro hcond
        rw [if_pos hcond]
    · constructor
      · intro hif
        by_contra hcond
        rw [if_pos hcond] at hif
        cases hif
      · intro hcond
        rw [if_neg hcond]

theorem smart_mode_season_decision_witness :
    (0 < airedTotalOf (some (6, 0)) ∧ airedDownloadedOf (some (6, 0)) = 0) ∧
    smart_mode_action true false (some (6, 0)) [1, 2, 3] = .season_pack :=
  ⟨⟨by decide, by decide⟩,
    (smart_mode_season_decision (some (6, 0)) [1, 2, 3]
      ⟨1, by decide⟩).1 ⟨by decide, by decide⟩⟩

/-! ## Cooldown predicate (claim C8) -/

/-- **C8** (cooldown contract): `item_on_cooldown` returns `false` when no
row exists; any failure to parse the stored `last_action_at` resolves to
`false` (expired) rather than an error; and when a row exists and parses to
`last`, the result is `true` exactly when `now − last < retry_hours` (in
hours, i.e. `retry_hours * 3600` seconds) — for every parsing behaviour
`parseIso`. -/
theorem item_on_cooldown_contract (parseIso : List Char → Option Int)
    (now : Int) (row : Option (List Char)) (retry_hours : Int) :
    (row = none → item_on_cooldown parseIso now row retry_hours = false) ∧
    (∀ s, row = some s → parseIso s = none →
      item_on_cooldown parseIso now row retry_hours = false) ∧
    (∀ s last, row = some s → parseIso s = some last →
      (item_on_cooldown parseIso now row retry_hours = true ↔
        now - last < retry_hours * 3600)) := by
  refine ⟨?_, ?_, ?_⟩
  · intro h
    rw [h]
    rfl
  · intro s hs hp
    rw [hs]
    simp [item_on_cooldown, hp]
  · intro s last hs hp
    rw [hs]
    simp only [item_on_cooldown, hp, decide_eq_true_eq]
    omega

theorem item_on_cooldown_contract_witness :
    (some (stringChars "ts") = some (stringChars "ts")) ∧
    ((fun _ : List Char => some (0 : Int)) (stringChars "ts") = some 0) ∧
    (item_on_cooldown (fun _ => some 0) 1 (some (stringChars "ts")) 1 = true ↔
      (1 : Int) - 0 < 1 * 3600) :=
  ⟨rfl, rfl,
    (item_on_cooldown_contract (fun _ => some 0) 1 (some (stringChars "ts")) 1).2.2
      (stringChars "ts") 0 rfl rfl⟩

/-! ## Credential round-trip (claim C9) -/

/-- Counterexample to **C9** as stated: for the API key `""` and a cipher
that round-trips perfectly (`tagDec (tagEnc k) = some k`),
`get_arr_api_key` after `set_arr_api_key` returns `None`, not the stored
key: the source ends with `decrypted.strip() or None`, so an empty (or
all-whitespace) key cannot round-trip. -/
theorem credential_roundtrip_cex :
    tagDec (tagEnc []) = some [] ∧ set_then_get tagEnc tagDec [] = none := by
  decide

/-- **C9** (amended): for every cipher whose decrypt inverts encrypt on the
stripped token (and whose tokens do not strip to nothing — Fernet tokens are
base64), `get_arr_api_key` after `set_arr_api_key` returns `strip(k)`, and
`None` exactly when `k` is empty or all whitespace; so the round-trip
returns `k` itself precisely for keys that equal their own strip and are
non-empty.  Moreover a missing row, an empty stored ciphertext, and a
ciphertext the cipher cannot decrypt all yield `None` (never an error). -/
theorem credential_roundtrip_amended :
    (∀ (enc : List Char → List Char) (dec : List Char → Option (List Char))
      (k : List Char),
      trimChars (enc k) ≠ [] →
      dec (trimChars (enc k)) = some k →
      set_then_get enc dec k
        = if (trimChars k).isEmpty then none else some (trimChars k)) ∧
    (∀ dec, get_arr_api_key dec none = none) ∧
    (∀ (dec : List Char → Option (List Char)) (t : List Char),
      trimChars t = [] → get_arr_api_key dec (some t) = none) ∧
    (∀ (dec : List Char → Option (List Char)) (t : List Char),
      dec (trimChars t) = none → get_arr_api_key dec (some t) = none) := by
  refine ⟨?_, ?_, ?_, ?_⟩
  · intro enc dec k hnz hdec
    have h1 : (trimChars (enc k)).isEmpty = false := by
      simpa [List.isEmpty_iff] using hnz
    simp [set_then_get, get_arr_api_key, h1, hdec]
  · intro dec
    rfl
  · intro dec t ht
    have h1 : (trimChars t).isEmpty = true := by
      simpa [List.isEmpty_iff] using ht
    simp [get_arr_api_key, h1]
  · intro dec t hdec
    by_cases ht : (trimChars t).isEmpty = true
    · simp [get_arr_api_key, ht]
    · simp [get_arr_api_key, ht, hdec]

theorem credential_roundtrip_amended_witness :
    trimChars (tagEnc (stringChars "abc")) ≠ [] ∧
    tagDec (trimChars (tagEnc (stringChars "abc"))) = some (stringChars "abc") ∧
    set_then_get tagEnc tagDec (stringChars "abc")
      = if (trimChars (stringChars "abc")).isEmpty then none
        else some (trimChars (stringChars "abc")) :=
  ⟨by decide, by decide,
    credential_roundtrip_amended.1 tagEnc tagDec (stringChars "abc")
      (by decide) (by decide)⟩

/-! ## Password verification totality (claim C10) -/

/-- **C10** (password verification is total): `_verify_password` returns a
boolean for every candidate password and stored hash — in this embedding
every fallible library call is modelled by an `Option` whose failure branch
the source maps to `False` via its catch-all `except` — and it returns
`false` whenever the stored hash is malformed: fewer than four `$`-separated
fields, an algorithm tag other than `pbkdf2_sha256`, a non-integer
iteration count, an undecodable salt or key field, or a parameter
combination on which `pbkdf2_hmac` itself raises; regardless of the
password supplied and of the behaviour of the pbkdf2/base64 primitives. -/
theorem verify_password_total
    (pbkdf2 : List Char → List Nat → Int → Nat → Option (List Nat))
    (b64decode : List Char → Option (List Nat)) (password hash : List Char) :
    ((pySplitDollar3 hash).length ≠ 4 →
      verify_password pbkdf2 b64decode password hash = false) ∧
    (∀ algo it_s salt_s dk_s,
      pySplitDollar3 hash = [algo, it_s, salt_s, dk_s] →
      (algo ≠ stringChars "pbkdf2_sha256" →
        verify_password pbkdf2 b64decode password hash = false) ∧
      (pyInt? it_s = none →
        verify_password pbkdf2 b64decode password hash = false) ∧
      (b64decode salt_s = none →
        verify_password pbkdf2 b64decode password hash = false) ∧
      (b64decode dk_s = none →
        verify_password pbkdf2 b64decode password hash = false) ∧
      (∀ iterations salt expected,
        pyInt? it_s = some iterations → b64decode salt_s = some salt →
        b64decode dk_s = some expected →
        pbkdf2 password salt iterations expected.length = none →
        verify_password pbkdf2 b64decode password hash = false)) := by
  constructor
  · intro hlen
    unfold verify_password
    rcases hps : pySplitDollar3 hash with _ | ⟨a, _ | ⟨b, _ | ⟨c, _ | ⟨d, _ | ⟨e, tl⟩⟩⟩⟩⟩ <;>
      simp_all [hps]
  · intro algo it_s salt_s dk_s hps
    refine ⟨?_, ?_, ?_, ?_, ?_⟩
    · intro halgo
      simp [verify_password, hps, halgo]
    · intro hit
      by_cases halgo : algo = stringChars "pbkdf2_sha256"
      · simp [verify_password, hps, halgo, hit]
      · simp [verify_password, hps, halgo]
    · intro hsalt
      by_cases halgo : algo = stringChars "pbkdf2_sha256"
      · cases hit : pyInt? it_s with
        | none => simp [verify_password, hps, halgo, hit]
        | some n =>
          cases hdk : b64decode dk_s <;>
            simp [verify_password, hps, halgo, hit, hsalt, hdk]
      · simp [verify_password, hps, halgo]
    · intro hdk
      by_cases halgo : algo = stringChars "pbkdf2_sha256"
      · cases hit : pyInt? it_s with
        | none => simp [verify_password, hps, halgo, hit]
        | some n =>
          cases hsalt : b64decode salt_s <;>
            simp [verify_password, hps, halgo, hit, hsalt, hdk]
      · simp [verify_password, hps, halgo]
    · intro iterations salt expected hit hsalt hdk hpb
      by_cases halgo : algo = stringChars "pbkdf2_sha256"
      · simp [verify_password, hps, halgo, hit, hsalt, hdk, hpb]
      · simp [verify_password, hps, halgo]

theorem verify_password_total_witness :
    (pySplitDollar3 (stringChars "bogus")).length ≠ 4 ∧
    verify_password (fun _ _ _ _ => none) (fun _ => none) (stringChars "pw")
      (stringChars "bogus") = false :=
  ⟨by decide,
    (verify_password_total (fun _ _ _ _ => none) (fun _ => none)
      (stringChars "pw") (stringChars "bogus")).1 (by decide)⟩

end Seekarr
